import Mathlib

/-!
Verification model of the vs-preview benchmarking core and its value types.

Shallow embedding of:
  * src/vspreview/core/types.py      (Frame, FrameInterval, Output conversions)
  * src/vspreview/utils/utils.py     (strfdelta)
  * src/vspreview/toolbars/benchmark.py (BenchmarkToolbar run / abort /
    _request_next_frame_sequenced / _request_next_frame_unsequenced /
    update_info)

Python ints are modelled as Int, Python float arithmetic in the frame/time
conversions is idealised as exact rational arithmetic (ℚ) while keeping the
microsecond quantisation that datetime.timedelta performs, and exceptions are
modelled with Except.  GUI-only side effects (labels, Qt timers, buttons) are
not part of the modelled state; where a Qt object carries run-relevant state
(the running flag, the in-flight future buffer) it is a field of the state.
-/

/-- Python exceptions raised by the modelled code paths. -/
inductive PyError where
  | valueError
  | zeroDivisionError
deriving DecidableEq, Repr

/-! ## Frame and FrameInterval (src/vspreview/core/types.py)

`Frame.value` is an `Int` and the non-negativity check lives in `Frame.init`
(the translation of `Frame.__init__`), exactly as in the source, so that the
unchecked in-place operators can be stated faithfully. -/

/-- The `Frame` wrapper: a single frame index.  The invariant `value ≥ 0` is
enforced only by the constructor, not by the type. -/
structure Frame where
  value : Int
deriving DecidableEq, Repr

/-- The `FrameInterval` wrapper: a (possibly negative) count of frames. -/
structure FrameInterval where
  value : Int
deriving DecidableEq, Repr

/-- `Frame.__init__` for an `int` argument: raises `ValueError` when the
value is negative, otherwise stores it. -/
def Frame.init (v : Int) : Except PyError Frame :=
  if v < 0 then .error .valueError else .ok ⟨v⟩

/-- `Frame.__add__`: `Frame(self.value + other.value)` — goes through the
constructor, hence revalidates. -/
def Frame.add (f : Frame) (i : FrameInterval) : Except PyError Frame :=
  Frame.init (f.value + i.value)

/-- `Frame.__sub__` with a `FrameInterval` argument: `Frame(self.value -
other.value)` — goes through the constructor. -/
def Frame.subInterval (f : Frame) (i : FrameInterval) : Except PyError Frame :=
  Frame.init (f.value - i.value)

/-- `Frame.__sub__` with a `Frame` argument: `FrameInterval(self.value -
other.value)`; `FrameInterval.__init__` accepts any int, so this never
raises. -/
def Frame.subFrame (a b : Frame) : FrameInterval :=
  ⟨a.value - b.value⟩

/-- `Frame.__iadd__`: `self.value += other.value` — mutates directly, with no
non-negativity check. -/
def Frame.iadd (f : Frame) (i : FrameInterval) : Frame :=
  ⟨f.value + i.value⟩

/-- `Frame.__isub__` (FrameInterval overload): `self.value -= other.value` —
mutates directly, with no non-negativity check. -/
def Frame.isub (f : Frame) (i : FrameInterval) : Frame :=
  ⟨f.value - i.value⟩

/-! ## Rounding and time conversions (src/vspreview/core/types.py, Output)

Python's builtin `round` and the float-to-microseconds conversion inside
`datetime.timedelta` both round half to even. -/

/-- Round half to even, as Python's builtin `round` does on floats. -/
def rnd (q : ℚ) : Int :=
  if q - ⌊q⌋ < (1 : ℚ) / 2 then ⌊q⌋
  else if (1 : ℚ) / 2 < q - ⌊q⌋ then ⌊q⌋ + 1
  else if ⌊q⌋ % 2 = 0 then ⌊q⌋ else ⌊q⌋ + 1

/-- `datetime.timedelta(seconds=x)` stores a whole number of microseconds:
the fractional seconds are rounded (half to even) to microsecond resolution.
`Time`/`TimeInterval` wrap such a timedelta, so this is the value that
`float(Time(seconds=x))` later reports. -/
def timedeltaOfSeconds (s : ℚ) : ℚ :=
  ((rnd (s * 1000000) : Int) : ℚ) / 1000000

/-- The fps-relevant part of `Output` (src/vspreview/core/types.py):
`self.fps_num`, `self.fps_den`, with `self.fps = fps_num / fps_den`. -/
structure Output where
  fps_num : Int
  fps_den : Int
deriving DecidableEq, Repr

/-- `Output.fps = self.fps_num / self.fps_den` (float division, idealised
over ℚ). -/
def Output.fps (o : Output) : ℚ :=
  (o.fps_num : ℚ) / (o.fps_den : ℚ)

/-- `Output._calculate_frame(seconds) = round(seconds * self.fps)`. -/
def Output.calculate_frame (o : Output) (seconds : ℚ) : Int :=
  rnd (seconds * o.fps)

/-- `Output._calculate_seconds(frame_num) = frame_num / (self.fps or 1)`. -/
def Output.calculate_seconds (o : Output) (frame_num : Int) : ℚ :=
  (frame_num : ℚ) / (if o.fps = 0 then 1 else o.fps)

/-- `Output.to_time(frame) = Time(seconds=self._calculate_seconds(int(frame)))`,
reported as (quantised) seconds. -/
def Output.to_time (o : Output) (frame : Int) : ℚ :=
  timedeltaOfSeconds (o.calculate_seconds frame)

/-- `Output.to_frame(time) = Frame(self._calculate_frame(float(time)))`,
as the raw integer index. -/
def Output.to_frame (o : Output) (t : ℚ) : Int :=
  o.calculate_frame t

/-- The frame → time → frame round trip `to_frame(to_time(f))`. -/
def roundTrip (o : Output) (f : Int) : Int :=
  o.to_frame (o.to_time f)

/-! ## strfdelta (src/vspreview/utils/utils.py)

The formatter substitutes `%`-fields on a timedelta whose normalised
representation is `(days, seconds, microseconds)` with `0 ≤ seconds < 86400`
and `0 ≤ microseconds < 10^6`.  Strings are modelled as `List Char`. -/

/-- A normalised `datetime.timedelta`: `days`, `seconds` (within the day) and
`microseconds` (within the second). -/
structure Timedelta where
  days : Int
  seconds : Nat
  microseconds : Nat
deriving DecidableEq, Repr

/-- The decimal digit character of `n < 10`. -/
def digitCharOf (n : Nat) : Char :=
  Char.ofNat (48 + n)

/-- Decimal digits of a natural number (fuelled helper). -/
def natDigitsAux : Nat → Nat → List Char
  | 0, _ => []
  | fuel + 1, n =>
    if n < 10 then [digitCharOf n]
    else natDigitsAux fuel (n / 10) ++ [digitCharOf (n % 10)]

/-- Decimal digits of a natural number, as Python's `'{:d}'.format`. -/
def natDigits (n : Nat) : List Char :=
  natDigitsAux (n + 1) n

/-- Python's `'{:d}'.format` on an int. -/
def intDigits (i : Int) : List Char :=
  if i < 0 then '-' :: natDigits i.natAbs else natDigits i.natAbs

/-- Python's `'{:02d}'.format`: zero-pad to width 2. -/
def pad2 (n : Nat) : List Char :=
  if n < 10 then '0' :: natDigits n else natDigits n

/-- Python's `'{:03d}'.format`: zero-pad to width 3. -/
def pad3 (n : Nat) : List Char :=
  if n < 10 then '0' :: '0' :: natDigits n
  else if n < 100 then '0' :: natDigits n
  else natDigits n

/-- Python's `'{:2d}'.format`: space-pad to width 2. -/
def spad2 (n : Nat) : List Char :=
  if n < 10 then ' ' :: natDigits n else natDigits n

/-- The substitution mapping `d` built by `strfdelta`:
`hours = td.seconds // 3600`, `minutes = td.seconds // 60` (total minutes in
the day, NOT minutes within the hour), `seconds = td.seconds % 60`,
`milliseconds = td.microseconds // 1000`.  An unknown key would make
`Template.substitute` raise `KeyError`; no format string in the source uses
one, and the fallback branch here is never exercised by the theorems. -/
def substField (td : Timedelta) (c : Char) : List Char :=
  if c = 'D' then intDigits td.days
  else if c = 'H' then pad2 (td.seconds / 3600)
  else if c = 'M' then pad2 (td.seconds / 60)
  else if c = 'S' then pad2 (td.seconds % 60)
  else if c = 'Z' then pad3 (td.microseconds / 1000)
  else if c = 'h' then natDigits (td.seconds / 3600)
  else if c = 'm' then spad2 (td.seconds / 60)
  else if c = 's' then spad2 (td.seconds % 60)
  else ['%', c]

/-- `strfdelta(time, output_format)`: `string.Template` substitution with
delimiter `%` over the field map above. -/
def strfdelta (td : Timedelta) : List Char → List Char
  | [] => []
  | '%' :: c :: rest => substField td c ++ strfdelta td rest
  | c :: rest => c :: strfdelta td rest

/-- The format string of `Time.__str__`. -/
def timeFormatHMSZ : List Char :=
  ['%', 'h', ':', '%', 'M', ':', '%', 'S', '.', '%', 'Z']

/-- `Time.__str__ = strfdelta(self, '%h:%M:%S.%Z')`. -/
def Time.str (td : Timedelta) : List Char :=
  strfdelta td timeFormatHMSZ

/-! ## BenchmarkToolbar.update_info (src/vspreview/toolbars/benchmark.py)

`run_time = TimeInterval(seconds=elapsed)` (microsecond-quantised),
`fps = int(frames_done) / float(run_time)` with NO divide-by-zero guard:
Python raises `ZeroDivisionError` when `float(run_time) == 0.0`. -/

/-- The fps computation of `update_info`, given the already-computed
`frames_done` and the raw elapsed seconds `perf_counter() - run_start_time`. -/
def update_info_fps (framesDone : Int) (elapsedSeconds : ℚ) : Except PyError ℚ :=
  let runTime := timedeltaOfSeconds elapsedSeconds
  if runTime = 0 then .error .zeroDivisionError
  else .ok ((framesDone : ℚ) / runTime)

/-! ## The benchmark run state machine (src/vspreview/toolbars/benchmark.py)

State fields mirror the `BenchmarkToolbar` attributes used by `run`, `abort`
and the two request methods.  Issued `get_frame_async` requests are recorded
in `log` (the requested frame index, in issue order); a request's id is its
position in `log`.  `resolved` is the set of ids whose future has completed.
`buffer` is the sequenced-mode deque of pending future ids (leftmost first,
as in `collections.deque`). -/

structure BState where
  running : Bool
  startF : Int
  endF : Int
  framesLeft : Int
  buffer : List Nat
  log : List Int
  resolved : Finset Nat
deriving DecidableEq

/-- `deque.appendleft` on a deque with `maxlen = c`: prepend, discarding from
the right end when full. -/
def dequeAppendleft (c : Nat) (x : Nat) (l : List Nat) : List Nat :=
  (x :: l).take c

/-- `BenchmarkToolbar.abort`: sets `self.running = False`.  The remaining
statements touch GUI objects only (conditional `update_info` display, the
info-timer stop, un-checking the Run/Abort button, whose re-entrant `abort`
call changes nothing further).  Notably it does NOT stop `sequenced_timer`. -/
def abortRun (s : BState) : BState :=
  { s with running := false }

/-- `BenchmarkToolbar._request_next_frame_sequenced`, fired by the (never
stopped) `sequenced_timer`: bail out via `abort` when `frames_left ≤ 0`; else
pop the oldest buffered future and block on its result (so it is resolved by
the time the call returns), then request `end_frame + 1 - frames_left` and
append its future on the left, and finally decrement `frames_left`.  It never
consults `self.running`.  A pop from an empty deque would raise IndexError in
Python; that situation is unreachable from `run` (the buffer always holds
`min(total, concurrency)` futures while `frames_left > 0`) and is modelled as
a no-op. -/
def tickSeq (c : Nat) (s : BState) : BState :=
  if s.framesLeft ≤ 0 then abortRun s
  else
    match s.buffer.getLast? with
    | none => s
    | some r =>
      let s1 : BState := { s with buffer := s.buffer.dropLast,
                                  resolved := insert r s.resolved }
      let next : Int := s1.endF + 1 - s1.framesLeft
      let s2 : BState :=
        if next ≤ s1.endF then
          { s1 with log := s1.log ++ [next],
                    buffer := dequeAppendleft c s1.log.length s1.buffer }
        else s1
      { s2 with framesLeft := s2.framesLeft - 1 }

/-- The body of `BenchmarkToolbar._request_next_frame_unsequenced` (the
resolution of the completed future that fired the callback is recorded by the
caller, see `BStep.cb`): bail out via `abort` when `frames_left ≤ 0`; if
`self.running`, request `end_frame + 1 - frames_left` (registering this same
method as its completion callback); `future.result()` is a no-op on an
already-completed future; finally decrement `frames_left`. -/
def reqNextUnseq (s : BState) : BState :=
  if s.framesLeft ≤ 0 then abortRun s
  else
    let s1 : BState :=
      if s.running then
        { s with log := s.log ++ [s.endF + 1 - s.framesLeft] }
      else s
    { s1 with framesLeft := s1.framesLeft - 1 }

/-- One iteration of the sequenced initial-fill loop of `run`: request
`start_frame + offset` and `appendleft` its future (id = number of requests
so far) onto the bounded deque. -/
def seqFillStep (c : Nat) (startF : Int) (s : BState) (offset : Nat) : BState :=
  { s with log := s.log ++ [startF + (offset : Int)],
           buffer := dequeAppendleft c s.log.length s.buffer }

/-- The trip count of the initial-fill loop of `run`:
`range(min(int(self.frames_left), concurrent_requests_count))` with
`frames_left = total` at that point (an empty range when `total ≤ 0`). -/
def n0Of (total : Int) (c : Nat) : Nat :=
  (min total (c : Int)).toNat

/-- `BenchmarkToolbar.run` (state-relevant part): copy the control values
into `start_frame`, `end_frame`, `total_frames`, `frames_left`; pick the
concurrency (`get_usable_cpus_count()` or 1 — always ≥ 1, passed here as
`c`); in sequenced mode reset the deque with `maxlen = c` and start the
sequenced timer; set `running = True`; then loop
`for offset in range(min(int(frames_left), c))`, requesting
`start_frame + offset` directly in sequenced mode or calling
`_request_next_frame_unsequenced()` in unsequenced mode.  There is no
validation of the configuration whatsoever. -/
def runB (startF endF total : Int) (c : Nat) (unseq : Bool) : BState :=
  let s0 : BState := { running := true, startF := startF, endF := endF,
                       framesLeft := total, buffer := [], log := [],
                       resolved := ∅ }
  if unseq then
    reqNextUnseq^[n0Of total c] s0
  else
    (List.range (n0Of total c)).foldl (seqFillStep c startF) s0

/-- Number of in-flight (issued but unresolved) requests. -/
def inFlight (s : BState) : Nat :=
  s.log.length - s.resolved.card

/-- Interleaving semantics of a benchmark run.  `c` is the concurrency,
`unseq` the ordering mode, `allowAbort` whether user-initiated aborts occur
in the trace.
  * `tick`: the sequenced timer fires (sequenced mode only; the timer is
    started by `run` and never stopped).
  * `cb`: in unsequenced mode an in-flight future `r` completes; the runtime
    marks it resolved and immediately runs the registered completion
    callback `_request_next_frame_unsequenced(future)`.
  * `envResolve`: in sequenced mode an in-flight future completes on its own
    (no callback is registered on sequenced futures).
  * `userAbort`: the user presses Abort, invoking `abort`. -/
inductive BStep (c : Nat) (unseq : Bool) (allowAbort : Bool) :
    BState → BState → Prop where
  | tick (s : BState) : unseq = false →
      BStep c unseq allowAbort s (tickSeq c s)
  | cb (s : BState) (r : Nat) : unseq = true → r < s.log.length →
      r ∉ s.resolved →
      BStep c unseq allowAbort s
        (reqNextUnseq { s with resolved := insert r s.resolved })
  | envResolve (s : BState) (r : Nat) : unseq = false → r < s.log.length →
      r ∉ s.resolved →
      BStep c unseq allowAbort s { s with resolved := insert r s.resolved }
  | userAbort (s : BState) : allowAbort = true →
      BStep c unseq allowAbort s (abortRun s)

/-- Reachability along benchmark steps. -/
def Reach (c : Nat) (unseq : Bool) (allowAbort : Bool) :
    BState → BState → Prop :=
  Relation.ReflTransGen (BStep c unseq allowAbort)

/-- Apply one unsequenced completion (resolution plus callback) for future
id `r` — the state transformer of `BStep.cb`, used to build concrete
schedules. -/
def cbApply (r : Nat) (s : BState) : BState :=
  reqNextUnseq { s with resolved := insert r s.resolved }

/-- Run a concrete schedule of unsequenced completions. -/
def cbRun : List Nat → BState → BState
  | [], s => s
  | r :: rs, s => cbRun rs (cbApply r s)

/-- Check that a schedule of completions is admissible (each completed future
was issued and not yet resolved). -/
def cbValid : List Nat → BState → Bool
  | [], _ => true
  | r :: rs, s =>
    decide (r < s.log.length) && decide (r ∉ s.resolved) && cbValid rs (cbApply r s)

/-- Shape of every reachable sequenced-mode state after `t` timer ticks: the
log is the initial fill `start .. start + n0 - 1` followed by the
callback-issued frames `end + 1 - total + i` for `i < t` (which start back
at `start_frame` when `total = end - start + 1`); the deque holds the ids
`t .. t + n0 - 1` (newest leftmost); the `t` popped-and-waited futures are
resolved, and only issued futures are. -/
def seqShape (c : Nat) (startF endF total : Int) (t : Nat) (s : BState) : Prop :=
  s.startF = startF ∧ s.endF = endF ∧
  s.framesLeft = total - t ∧
  s.log = (List.range (n0Of total c)).map (fun i : Nat => startF + (i : Int))
          ++ (List.range t).map (fun i : Nat => endF + 1 - total + (i : Int)) ∧
  s.buffer = (List.range' t (n0Of total c)).reverse ∧
  Finset.range t ⊆ s.resolved ∧ s.resolved ⊆ Finset.range (n0Of total c + t)

/-- Invariant of every reachable unsequenced-mode state: the log is an
initial segment `end + 1 - total + i` (`= start + i` when
`total = end - start + 1`) of the range, `frames_left` counts down exactly
with issues while running, and each request beyond the initial fill was
issued by a resolving callback. -/
def unseqShape (c : Nat) (startF endF total : Int) (s : BState) : Prop :=
  s.startF = startF ∧ s.endF = endF ∧
  s.log = (List.range s.log.length).map (fun i : Nat => endF + 1 - total + (i : Int)) ∧
  (s.log.length : Int) ≤ total ∧
  0 ≤ s.framesLeft ∧
  s.framesLeft ≤ total - s.log.length ∧
  (s.running = true → s.framesLeft = total - s.log.length) ∧
  s.log.length ≤ n0Of total c + s.resolved.card ∧
  s.resolved ⊆ Finset.range s.log.length

/-- In a trace with no user abort, a stopped (`running = false`) unsequenced
run has issued the full range and counted down to zero. -/
def unseqDone (total : Int) (s : BState) : Prop :=
  s.running = false → ((s.log.length : Int) = total ∧ s.framesLeft = 0)

/-- A completed sequenced benchmark over `[0, 9]` with concurrency 3: the
state after `run` and ten timer ticks. -/
def seqDemo : BState :=
  (tickSeq 3)^[10] (runB 0 9 10 3 false)

/-- A sequenced benchmark over `[0, 99]` with concurrency 5, aborted
immediately after `run`. -/
def c2Aborted : BState :=
  abortRun (runB 0 99 100 5 false)

/-- A mid-run state of the sequenced `[0, 9]`, concurrency-3 benchmark:
after `run` and seven timer ticks. -/
def c4Demo : BState :=
  (tickSeq 3)^[7] (runB 0 9 10 3 false)

/-! ## Helper lemmas -/

theorem range1_succ (s n : Nat) : List.range' s (n + 1) = s :: List.range' (s + 1) n := by
  simpa using List.range'_succ s n 1

theorem range1_concat (s n : Nat) : List.range' s (n + 1) = List.range' s n ++ [s + n] := by
  simpa using @List.range'_concat 1 s n

/-- Half-to-even rounding moves a rational by at most one half. -/
theorem rnd_dist (q : ℚ) : |(rnd q : ℚ) - q| ≤ 1 / 2 := by
  have h0 : (⌊q⌋ : ℚ) ≤ q := Int.floor_le q
  have h1 : q < ⌊q⌋ + 1 := Int.lt_floor_add_one q
  unfold rnd
  split
  case isTrue h =>
    rw [abs_le]
    constructor <;> linarith
  case isFalse h =>
    split
    case isTrue h2 =>
      rw [abs_le]
      constructor <;> push_cast <;> linarith
    case isFalse h2 =>
      have heq : q - ⌊q⌋ = 1 / 2 := by linarith
      split
      case isTrue h3 =>
        rw [abs_le]
        constructor <;> linarith
      case isFalse h3 =>
        rw [abs_le]
        constructor <;> push_cast <;> linarith

/-- Rounding a rational within one half of an integer lands within one. -/
theorem rnd_near_int (f : Int) (e : ℚ) (he : |e| ≤ 1 / 2) :
    (rnd ((f : ℚ) + e) - f).natAbs ≤ 1 := by
  have h := rnd_dist ((f : ℚ) + e)
  have h2 : |(rnd ((f : ℚ) + e) : ℚ) - f| ≤ 1 := by
    have hsplit : (rnd ((f : ℚ) + e) : ℚ) - f
        = ((rnd ((f : ℚ) + e) : ℚ) - ((f : ℚ) + e)) + e := by
      ring
    rw [hsplit]
    calc |((rnd ((f : ℚ) + e) : ℚ) - ((f : ℚ) + e)) + e|
        ≤ |(rnd ((f : ℚ) + e) : ℚ) - ((f : ℚ) + e)| + |e| := abs_add _ _
      _ ≤ 1 / 2 + 1 / 2 := add_le_add h he
      _ = 1 := by norm_num
  have h3 : |((rnd ((f : ℚ) + e) - f : Int) : ℚ)| ≤ 1 := by push_cast; exact h2
  rw [← Int.cast_abs] at h3
  have h4 : |rnd ((f : ℚ) + e) - f| ≤ 1 := by exact_mod_cast h3
  have h5 := abs_le.mp h4
  omega

/-- What `run` produces in sequenced mode (initial fill unrolled). -/
theorem seqFill_aux (c : Nat) (startF endF total : Int) (n : Nat) (hn : n ≤ c) :
    (List.range n).foldl (seqFillStep c startF)
        ⟨true, startF, endF, total, [], [], ∅⟩ =
      ⟨true, startF, endF, total, (List.range n).reverse,
        (List.range n).map (fun i : Nat => startF + (i : Int)), ∅⟩ := by
  induction n with
  | zero => rfl
  | succ n ih =>
    rw [List.range_succ, List.foldl_append, ih (by omega)]
    simp only [List.foldl_cons, List.foldl_nil, seqFillStep, dequeAppendleft]
    congr 1
    · rw [List.length_map, List.length_range]
      rw [List.take_of_length_le]
      · simp [List.range_succ]
      · simp
        omega
    · simp [List.range_succ]

theorem runB_seq_eq (startF endF total : Int) (c : Nat) :
    runB startF endF total c false =
      ⟨true, startF, endF, total, (List.range (n0Of total c)).reverse,
        (List.range (n0Of total c)).map (fun i : Nat => startF + (i : Int)), ∅⟩ := by
  rw [runB]
  simp only [Bool.false_eq_true, if_false]
  exact seqFill_aux c startF endF total _ (by simp only [n0Of]; omega)

/-- What `run` produces in unsequenced mode (initial fill unrolled): each of
the `n` calls to `_request_next_frame_unsequenced` sees `frames_left > 0`
and `running`, so issues one request and decrements. -/
theorem unseqFill_aux (startF endF total : Int) (n : Nat) (hn : (n : Int) ≤ total) :
    reqNextUnseq^[n] ⟨true, startF, endF, total, [], [], ∅⟩ =
      ⟨true, startF, endF, total - n, [],
        (List.range n).map (fun i : Nat => endF + 1 - total + (i : Int)), ∅⟩ := by
  induction n with
  | zero => simp
  | succ n ih =>
    rw [Function.iterate_succ_apply', ih (by push_cast at hn ⊢; omega)]
    rw [reqNextUnseq]
    rw [if_neg (by simp only; push_cast at hn ⊢; omega)]
    simp only [if_true]
    congr 1
    · push_cast
      ring
    · rw [List.range_succ, List.map_append]
      congr 1
      simp
      ring

theorem runB_unseq_eq (startF endF total : Int) (c : Nat) (h0 : 0 ≤ total) :
    runB startF endF total c true =
      ⟨true, startF, endF, total - n0Of total c, [],
        (List.range (n0Of total c)).map (fun i : Nat => endF + 1 - total + (i : Int)), ∅⟩ := by
  rw [runB]
  simp only [if_true]
  exact unseqFill_aux startF endF total _ (by simp only [n0Of]; omega)

theorem seqShape_log_length (c : Nat) (startF endF total : Int) (t : Nat)
    (s : BState) (h : seqShape c startF endF total t s) :
    s.log.length = n0Of total c + t := by
  obtain ⟨-, -, -, hlog, -⟩ := h
  simp [hlog]

/-- A timer tick preserves the sequenced shape (same `t` when it hits the
`frames_left ≤ 0` abort path, `t + 1` when it requests). -/
theorem seqShape_tick (c : Nat) (startF endF total : Int) (t : Nat)
    (h1 : 1 ≤ total) (hc : 1 ≤ c) (s : BState)
    (ht : (t : Int) ≤ total) (hs : seqShape c startF endF total t s) :
    ∃ t2 : Nat, (t2 : Int) ≤ total ∧ seqShape c startF endF total t2 (tickSeq c s) := by
  obtain ⟨hsf, hef, hfl, hlog, hbuf, hres1, hres2⟩ := hs
  have hn0c : n0Of total c ≤ c := by simp only [n0Of]; omega
  have hn0t : (n0Of total c : Int) ≤ total := by simp only [n0Of]; omega
  by_cases hstop : s.framesLeft ≤ 0
  · refine ⟨t, ht, ?_⟩
    rw [tickSeq, if_pos hstop]
    exact ⟨hsf, hef, hfl, hlog, hbuf, hres1, hres2⟩
  · have htlt : (t : Int) < total := by omega
    have hn0 : 1 ≤ n0Of total c := by simp only [n0Of]; omega
    obtain ⟨k, hk⟩ : ∃ k, n0Of total c = k + 1 := ⟨n0Of total c - 1, by omega⟩
    refine ⟨t + 1, by push_cast; omega, ?_⟩
    rw [tickSeq, if_neg hstop]
    have hbuf2 : s.buffer = (List.range' (t + 1) k).reverse ++ [t] := by
      rw [hbuf, hk, range1_succ]
      simp
    rw [hbuf2]
    rw [List.getLast?_concat]
    simp only [List.dropLast_concat]
    have hguard : s.endF + 1 - s.framesLeft ≤ s.endF := by omega
    rw [if_pos hguard]
    have hloglen : s.log.length = n0Of total c + t := by simp [hlog]
    refine ⟨hsf, hef, by simp; omega, ?_, ?_, ?_, ?_⟩
    · simp only [hlog, hloglen]
      rw [List.range_succ, List.map_append, List.append_assoc]
      congr 2
      simp only [List.map_cons, List.map_nil, List.cons.injEq, and_true]
      rw [hef, hfl]
      ring
    · simp only [hloglen, dequeAppendleft]
      rw [List.take_of_length_le]
      · rw [hk, range1_concat]
        simp only [List.reverse_append, List.reverse_cons, List.reverse_nil,
          List.nil_append, List.singleton_append]
        congr 1
        omega
      · simp
        omega
    · rw [Finset.range_succ]
      exact Finset.insert_subset_insert _ hres1
    · apply Finset.insert_subset
      · simp
        omega
      · exact hres2.trans (Finset.range_subset.mpr (by omega))

theorem seqShape_envResolve (c : Nat) (startF endF total : Int) (t : Nat)
    (s : BState) (r : Nat) (hr : r < s.log.length)
    (hs : seqShape c startF endF total t s) :
    seqShape c startF endF total t { s with resolved := insert r s.resolved } := by
  obtain ⟨hsf, hef, hfl, hlog, hbuf, hres1, hres2⟩ := hs
  have hloglen : s.log.length = n0Of total c + t := by simp [hlog]
  refine ⟨hsf, hef, hfl, hlog, hbuf, ?_, ?_⟩
  · exact hres1.trans (Finset.subset_insert _ _)
  · apply Finset.insert_subset
    · simp
      omega
    · exact hres2

theorem seqShape_abort (c : Nat) (startF endF total : Int) (t : Nat)
    (s : BState) (hs : seqShape c startF endF total t s) :
    seqShape c startF endF total t (abortRun s) := hs

/-- Every state reachable in a sequenced run satisfies the shape invariant
for some tick count `t ≤ total`. -/
theorem seq_reach_shape (c : Nat) (a : Bool) (startF endF total : Int)
    (h1 : 1 ≤ total) (hc : 1 ≤ c) (s : BState)
    (hr : Reach c false a (runB startF endF total c false) s) :
    ∃ t : Nat, (t : Int) ≤ total ∧ seqShape c startF endF total t s := by
  induction hr with
  | refl =>
    refine ⟨0, by omega, ?_⟩
    rw [runB_seq_eq]
    refine ⟨rfl, rfl, by simp, by simp, ?_, by simp, by simp⟩
    simp [List.range_eq_range']
  | tail hab hstep ih =>
    obtain ⟨t, ht, hshape⟩ := ih
    cases hstep with
    | tick huns => exact seqShape_tick c startF endF total t h1 hc _ ht hshape
    | cb r huns hr1 hr2 => exact absurd huns (by simp)
    | envResolve r huns hr1 hr2 =>
      exact ⟨t, ht, seqShape_envResolve c startF endF total t _ r hr1 hshape⟩
    | userAbort ha =>
      exact ⟨t, ht, seqShape_abort c startF endF total t _ hshape⟩

/-- An unsequenced completion callback preserves the invariant. -/
theorem unseqShape_cb (c : Nat) (startF endF total : Int) (s : BState) (r : Nat)
    (hr1 : r < s.log.length) (hr2 : r ∉ s.resolved)
    (hs : unseqShape c startF endF total s) :
    unseqShape c startF endF total
      (reqNextUnseq { s with resolved := insert r s.resolved }) := by
  obtain ⟨run, sf, ef, fl, buf, lg, res⟩ := s
  obtain ⟨hsf, hef, hlog, hlen, hfl0, hfl1, hrun, hcard, hsub⟩ := hs
  simp only at hr1 hr2 hsf hef hlog hlen hfl0 hfl1 hrun hcard hsub
  have hcard2 : (insert r res).card = res.card + 1 :=
    Finset.card_insert_of_not_mem hr2
  have hsub2 : insert r res ⊆ Finset.range lg.length :=
    Finset.insert_subset (by simpa using hr1) hsub
  rw [reqNextUnseq]
  by_cases hstop : fl ≤ 0
  · rw [if_pos (by simpa using hstop)]
    exact ⟨hsf, hef, hlog, hlen, hfl0, hfl1, by simp [abortRun],
      by simp [abortRun]; omega, hsub2⟩
  · rw [if_neg (by simpa using hstop)]
    by_cases hrunning : run = true
    · rw [if_pos (by simpa using hrunning)]
      have hflx : fl = total - lg.length := hrun hrunning
      refine ⟨hsf, hef, ?_, ?_, ?_, ?_, ?_, ?_, ?_⟩
      · simp only [List.length_append, List.length_cons, List.length_nil]
        rw [List.range_succ, List.map_append]
        rw [hef]
        nth_rewrite 1 [hlog]
        simp only [List.map_cons, List.map_nil, List.append_cancel_left_eq,
          List.cons.injEq, and_true]
        omega
      · simp only [List.length_append, List.length_cons, List.length_nil]
        push_cast
        omega
      · simp only
        omega
      · simp only [List.length_append, List.length_cons, List.length_nil]
        push_cast
        omega
      · intro
        simp only [List.length_append, List.length_cons, List.length_nil]
        push_cast
        omega
      · simp only [List.length_append, List.length_cons, List.length_nil]
        omega
      · simp only [List.length_append, List.length_cons, List.length_nil]
        exact hsub2.trans (Finset.range_subset.mpr (by omega))
    · rw [if_neg (by simpa using hrunning)]
      refine ⟨hsf, hef, hlog, hlen, by simp; omega, by simp; omega, ?_,
        by simp; omega, hsub2⟩
      intro hx
      simp only at hx
      exact absurd hx hrunning

/-- Every state reachable in an unsequenced run satisfies the invariant. -/
theorem unseq_reach_shape (c : Nat) (a : Bool) (startF endF total : Int)
    (h1 : 1 ≤ total) (s : BState)
    (hr : Reach c true a (runB startF endF total c true) s) :
    unseqShape c startF endF total s := by
  induction hr with
  | refl =>
    rw [runB_unseq_eq startF endF total c (by omega)]
    have hn0t : (n0Of total c : Int) ≤ total := by simp only [n0Of]; omega
    refine ⟨rfl, rfl, by simp, by simpa using hn0t,
      by show 0 ≤ total - (n0Of total c : Int); omega, by simp,
      fun _ => by simp, by simp, by simp⟩
  | tail hab hstep ih =>
    cases hstep with
    | tick huns => exact absurd huns (by simp)
    | cb r huns hr1 hr2 => exact unseqShape_cb c startF endF total _ r hr1 hr2 ih
    | envResolve r huns hr1 hr2 => exact absurd huns (by simp)
    | userAbort ha =>
      obtain ⟨hsf, hef, hlog, hlen, hfl0, hfl1, hrun, hcard, hsub⟩ := ih
      exact ⟨hsf, hef, hlog, hlen, hfl0, hfl1,
        fun h => absurd h (by simp [abortRun]), hcard, hsub⟩

/-- Along a trace with no user abort, once an unsequenced run stops it has
issued the whole range. -/
theorem unseq_reach_done (c : Nat) (startF endF total : Int)
    (h1 : 1 ≤ total) (s : BState)
    (hr : Reach c true false (runB startF endF total c true) s) :
    unseqDone total s := by
  induction hr with
  | refl =>
    intro h
    rw [runB_unseq_eq startF endF total c (by omega)] at h
    simp at h
  | tail hab hstep ih =>
    rename_i b s2
    have hshape := unseq_reach_shape c false startF endF total h1 b hab
    obtain ⟨hsf, hef, hlog, hlen, hfl0, hfl1, hrun, hcard, hsub⟩ := hshape
    cases hstep with
    | tick huns => exact absurd huns (by simp)
    | envResolve r huns hr1 hr2 => exact absurd huns (by simp)
    | userAbort ha => exact absurd ha (by simp)
    | cb r huns hr1 hr2 =>
      intro hstopped
      rw [reqNextUnseq] at hstopped ⊢
      by_cases hstop : b.framesLeft ≤ 0
      · rw [if_pos (by simpa using hstop)] at hstopped ⊢
        have hfl : b.framesLeft = 0 := by omega
        have hlenT : (b.log.length : Int) = total := by
          by_cases hrunning : b.running = true
          · have := hrun hrunning
            omega
          · exact (ih (by simpa using hrunning)).1
        constructor
        · simpa [abortRun] using hlenT
        · simpa [abortRun] using hfl
      · rw [if_neg (by simpa using hstop)] at hstopped ⊢
        exfalso
        by_cases hrunning : b.running = true
        · rw [if_pos (by simpa using hrunning)] at hstopped
          simp only at hstopped
          simp [hrunning] at hstopped
        · have := ih (by simpa using hrunning)
          omega

/-- Iterated timer ticks are reachable in sequenced mode. -/
theorem reach_tick_iterate (c : Nat) (a : Bool) (s : BState) (n : Nat) :
    Reach c false a s ((tickSeq c)^[n] s) := by
  induction n with
  | zero => exact Relation.ReflTransGen.refl
  | succ n ih =>
    rw [Function.iterate_succ_apply']
    exact Relation.ReflTransGen.tail ih (BStep.tick _ rfl)

/-- A valid schedule of unsequenced completions is reachable. -/
theorem reach_cbRun (c : Nat) (a : Bool) (l : List Nat) (s : BState)
    (hv : cbValid l s = true) : Reach c true a s (cbRun l s) := by
  induction l generalizing s with
  | nil => exact Relation.ReflTransGen.refl
  | cons r rs ih =>
    simp only [cbValid, Bool.and_eq_true, decide_eq_true_eq] at hv
    obtain ⟨⟨h1, h2⟩, h3⟩ := hv
    exact Relation.ReflTransGen.head (BStep.cb s r rfl h1 h2) (ih _ h3)

/-- Claim C1, counterexample.  A completed sequenced run over the range
`[0, 9]` with concurrency 3 requests frame index 0 twice (once in the
initial fill of `run`, once by the first timer tick, whose
`next_frame = end_frame + 1 - frames_left` starts back at `start_frame`),
refuting that every index is requested exactly once in both modes. -/
theorem c1_counterexample :
    Reach 3 false false (runB 0 9 10 3 false) seqDemo ∧
    seqDemo.framesLeft = 0 ∧
    seqDemo.log.count 0 = 2 := by
  refine ⟨reach_tick_iterate 3 false _ 10, by decide, by decide⟩

/-- Claim C1, amended.  In unsequenced mode a completed run requests every
index of `[start, end]` exactly once (the log is exactly
`[start, start+1, ..., end]`); in sequenced mode a completed run requests
every index once via the timer callbacks but additionally requests the first
`min(concurrency, total)` indices a second time in the initial fill of
`run`, so its log is `[start, ..., start+n0-1] ++ [start, ..., end]`. -/
theorem c1_amended :
    (∀ (startF endF total : Int) (c : Nat) (s : BState),
      total = endF + 1 - startF → 1 ≤ total → 1 ≤ c →
      Reach c true false (runB startF endF total c true) s →
      s.framesLeft = 0 →
      s.log = (List.range total.toNat).map (fun i : Nat => startF + (i : Int))) ∧
    (∀ (startF endF total : Int) (c : Nat) (s : BState),
      total = endF + 1 - startF → 1 ≤ total → 1 ≤ c →
      Reach c false false (runB startF endF total c false) s →
      s.framesLeft = 0 →
      s.log = (List.range (n0Of total c)).map (fun i : Nat => startF + (i : Int))
              ++ (List.range total.toNat).map (fun i : Nat => startF + (i : Int))) := by
  constructor
  · intro startF endF total c s htot h1 hc hr hfl
    obtain ⟨hsf, hef, hlog, hlen, hfl0, hfl1, hrun, hcard, hsub⟩ :=
      unseq_reach_shape c false startF endF total h1 s hr
    have hlenT : (s.log.length : Int) = total := by
      by_cases hrunning : s.running = true
      · have := hrun hrunning
        omega
      · exact (unseq_reach_done c startF endF total h1 s hr (by simpa using hrunning)).1
    have hlenN : s.log.length = total.toNat := by omega
    have hf : endF + 1 - total = startF := by omega
    rw [hlog, hlenN, hf]
  · intro startF endF total c s htot h1 hc hr hfl
    obtain ⟨t, ht, hsf, hef, hflq, hlog, hbuf, hres1, hres2⟩ :=
      seq_reach_shape c false startF endF total h1 hc s hr
    have htT : (t : Int) = total := by omega
    have htN : t = total.toNat := by omega
    have hf : endF + 1 - total = startF := by omega
    rw [hlog, htN, hf]

/-- Claim C1, witness: the concrete unsequenced run over `[0, 9]` with
concurrency 4, completions in issue order, requests exactly the ten indices
0..9, once each. -/
theorem c1_witness :
    (cbRun [0, 1, 2, 3, 4, 5, 6, 7, 8, 9] (runB 0 9 10 4 true)).log =
      (List.range (10 : Int).toNat).map (fun i : Nat => (0 : Int) + (i : Int)) := by
  refine c1_amended.1 0 9 10 4 _ (by norm_num) (by norm_num) (by norm_num)
    (reach_cbRun 4 false _ _ (by decide)) (by decide)

/-- Claim C2, evidence.  A sequenced run over `[0, 99]` with concurrency 5 is
started and aborted immediately (5 requests issued, `running = false`); the
next tick of `sequenced_timer` — which `abort` never stops, and whose
handler `_request_next_frame_sequenced` never checks `running` — still
issues a sixth `get_frame_async` request. -/
theorem c2_abort_does_not_stop_sequenced :
    Reach 5 false true (runB 0 99 100 5 false) (tickSeq 5 c2Aborted) ∧
    c2Aborted.running = false ∧
    c2Aborted.log.length = 5 ∧
    (tickSeq 5 c2Aborted).log.length = 6 := by
  refine ⟨?_, by decide, by decide, by decide⟩
  exact Relation.ReflTransGen.tail
    (Relation.ReflTransGen.single (BStep.userAbort _ rfl))
    (BStep.tick _ rfl)

/-- Claim C3, counterexample.  `run` with `rangeStart = 5 > rangeEnd = 2`
(so `total_frames = -2`) does not fail and does not leave the state
unchanged: it transitions the controller to `running = true` (while issuing
zero requests, the loop range being empty) — there is no `InvalidConfig`
rejection anywhere in the code. -/
theorem c3_counterexample :
    (runB 5 2 (-2) 4 true).running = true ∧
    (runB 5 2 (-2) 4 true).log = [] := by
  constructor <;> decide

/-- Claim C3, amended.  `run` performs no configuration validation: with
`rangeStart > rangeEnd` (equivalently `total_frames ≤ 0`) it still starts
the run — `running` becomes true — and issues zero frame requests because
the initial-fill loop `range(min(int(frames_left), concurrency))` is empty;
concurrency is always ≥ 1 in the source (`get_usable_cpus_count()` when
prefetching, else 1), so `concurrency < 1` cannot occur. -/
theorem c3_amended :
    ∀ (startF endF total : Int) (c : Nat) (unseq : Bool), total ≤ 0 →
      (runB startF endF total c unseq).running = true ∧
      (runB startF endF total c unseq).log = [] := by
  intro startF endF total c unseq htot
  have hn0 : n0Of total c = 0 := by simp only [n0Of]; omega
  rw [runB]
  cases unseq with
  | false => rw [hn0]; simp
  | true => rw [hn0]; simp

/-- Claim C3, witness: the amended claim at `rangeStart = 5`,
`rangeEnd = 2`, `total = -2`, concurrency 4, sequenced mode. -/
theorem c3_witness :
    (runB 5 2 (-2) 4 false).running = true ∧ (runB 5 2 (-2) 4 false).log = [] :=
  c3_amended 5 2 (-2) 4 false (by norm_num)

/-- Claim C4.  (1) In both ordering modes, in every reachable state of a run
(user aborts included) the number of in-flight requests is at most the
configured concurrency `c`.  (2) `run` issues exactly
`min(concurrency, totalFrames)` initial requests.  (3) In the sequenced run
over `[0, 9]` with concurrency 3, whenever a request for index `k ≥ 3` has
been issued, a request for index `k - 3` has already been resolved. -/
theorem c4_invariants :
    (∀ (startF endF total : Int) (c : Nat) (unseq a : Bool) (s : BState),
      1 ≤ total → 1 ≤ c →
      Reach c unseq a (runB startF endF total c unseq) s →
      inFlight s ≤ c) ∧
    (∀ (startF endF total : Int) (c : Nat) (unseq : Bool), 0 ≤ total →
      (runB startF endF total c unseq).log.length = n0Of total c) ∧
    (∀ (a : Bool) (s : BState),
      Reach 3 false a (runB 0 9 10 3 false) s →
      ∀ k : Int, 3 ≤ k → k ∈ s.log →
      ∃ j ∈ s.resolved, s.log[j]? = some (k - 3)) := by
  refine ⟨?_, ?_, ?_⟩
  · intro startF endF total c unseq a s h1 hc hr
    have hn0c : n0Of total c ≤ c := by simp only [n0Of]; omega
    cases unseq with
    | true =>
      obtain ⟨-, -, -, -, -, -, -, hcard, hsub⟩ :=
        unseq_reach_shape c a startF endF total h1 s hr
      simp only [inFlight]
      omega
    | false =>
      obtain ⟨t, ht, hshape⟩ := seq_reach_shape c a startF endF total h1 hc s hr
      have hlen := seqShape_log_length c startF endF total t s hshape
      obtain ⟨-, -, -, -, -, hres1, hres2⟩ := hshape
      have hcardt : t ≤ s.resolved.card := by
        have := Finset.card_le_card hres1
        simpa using this
      simp only [inFlight]
      omega
  · intro startF endF total c unseq h0
    cases unseq with
    | true =>
      rw [runB_unseq_eq startF endF total c h0]
      simp
    | false =>
      rw [runB_seq_eq]
      simp
  · intro a s hr k hk3 hkmem
    obtain ⟨t, ht, hsf, hef, hflq, hlog, hbuf, hres1, hres2⟩ :=
      seq_reach_shape 3 a 0 9 10 (by norm_num) (by norm_num) s hr
    have hn03 : n0Of 10 3 = 3 := by decide
    rw [hn03] at hlog
    rw [hlog] at hkmem ⊢
    rw [List.mem_append] at hkmem
    cases hkmem with
    | inl h =>
      exfalso
      obtain ⟨i, hi, hki⟩ := List.mem_map.mp h
      rw [List.mem_range] at hi
      omega
    | inr h =>
      obtain ⟨i, hi, hki⟩ := List.mem_map.mp h
      rw [List.mem_range] at hi
      have hi3 : 3 ≤ i := by omega
      refine ⟨i, hres1 (Finset.mem_range.mpr hi), ?_⟩
      rw [List.getElem?_append_right (by simpa using hi3)]
      simp only [List.length_map, List.length_range]
      rw [List.getElem?_map]
      rw [List.getElem?_range (show i - 3 < t by omega)]
      simp only [Option.map_some', Option.some.injEq]
      omega

/-- Claim C4, witness: the initial state of the unsequenced `[0, 9]`,
concurrency-4 run has at most 4 requests in flight; the sequenced `[0, 9]`,
concurrency-3 run issues exactly `min(3, 10) = 3` initial requests; and in
the mid-run state after seven ticks of that sequenced run, index 4 having
been requested, a request for index 1 is resolved. -/
theorem c4_witness :
    inFlight (runB 0 9 10 4 true) ≤ 4 ∧
    (runB 0 9 10 3 false).log.length = n0Of 10 3 ∧
    (∃ j ∈ c4Demo.resolved, c4Demo.log[j]? = some (4 - 3)) := by
  refine ⟨c4_invariants.1 0 9 10 4 true false _ (by norm_num) (by norm_num)
      Relation.ReflTransGen.refl,
    c4_invariants.2.1 0 9 10 3 false (by norm_num),
    c4_invariants.2.2 false c4Demo (reach_tick_iterate 3 false _ 7) 4
      (by norm_num) (by decide)⟩

/-- Claim C5, counterexample.  Refreshing the throughput display with
elapsed time 0 does not report `fps = 0`: `update_info` divides
`int(frames_done) / float(run_time)` with no guard, and Python raises
`ZeroDivisionError`. -/
theorem c5_counterexample :
    update_info_fps 0 0 = .error .zeroDivisionError := by
  norm_num [update_info_fps, timedeltaOfSeconds, rnd]

/-- Claim C5, amended.  `update_info` has no divide-by-zero guard: whenever
the elapsed run time (as quantised by the `timedelta` inside
`TimeInterval(seconds=...)`) is 0 — in particular at elapsed exactly 0 — the
fps computation raises `ZeroDivisionError`; otherwise it reports
`frames_done / run_time`. -/
theorem c5_amended :
    ∀ (framesDone : Int) (elapsed : ℚ),
      (timedeltaOfSeconds elapsed = 0 →
        update_info_fps framesDone elapsed = .error .zeroDivisionError) ∧
      (timedeltaOfSeconds elapsed ≠ 0 →
        update_info_fps framesDone elapsed =
          .ok ((framesDone : ℚ) / timedeltaOfSeconds elapsed)) := by
  intro d q
  constructor <;> intro h <;> simp [update_info_fps, h]

/-- Claim C5, witness: at elapsed 0 the fps computation raises
`ZeroDivisionError`; at elapsed 1 s it reports the quotient. -/
theorem c5_witness :
    update_info_fps 7 0 = .error .zeroDivisionError ∧
    update_info_fps 7 1 = .ok ((7 : ℚ) / timedeltaOfSeconds 1) :=
  ⟨(c5_amended 7 0).1 (by norm_num [timedeltaOfSeconds, rnd]),
   (c5_amended 7 1).2 (by norm_num [timedeltaOfSeconds, rnd])⟩

/-- Claim C6, counterexample.  The in-place subtraction `Frame.__isub__`
does not preserve non-negativity: `Frame(0) -= FrameInterval(1)` leaves the
frame with value `-1` and raises nothing. -/
theorem c6_counterexample :
    (Frame.isub ⟨0⟩ ⟨1⟩).value = -1 ∧ ¬ (0 ≤ (Frame.isub ⟨0⟩ ⟨1⟩).value) := by
  constructor <;> decide

/-- Claim C6, amended.  Constructing a `Frame` from a negative int raises
`ValueError` and from a non-negative int succeeds; the pure operators
`__add__` and `__sub__` go through the constructor and hence only ever
produce values ≥ 0 (raising `ValueError` otherwise); but the in-place
`__iadd__`/`__isub__` mutate `value` directly with no check and can leave a
negative value. -/
theorem c6_amended :
    (∀ v : Int, v < 0 → Frame.init v = .error .valueError) ∧
    (∀ v : Int, 0 ≤ v → Frame.init v = .ok ⟨v⟩) ∧
    (∀ (f : Frame) (i : FrameInterval) (g : Frame),
      Frame.add f i = .ok g → 0 ≤ g.value) ∧
    (∀ (f : Frame) (i : FrameInterval) (g : Frame),
      Frame.subInterval f i = .ok g → 0 ≤ g.value) ∧
    (Frame.isub ⟨0⟩ ⟨1⟩).value < 0 := by
  refine ⟨?_, ?_, ?_, ?_, by decide⟩
  · intro v h
    simp [Frame.init, h]
  · intro v h
    rw [Frame.init, if_neg (by omega)]
  · intro f i g h
    by_cases hc : f.value + i.value < 0
    · simp [Frame.add, Frame.init, hc] at h
    · simp [Frame.add, Frame.init, hc] at h
      rw [← h]
      simpa using by omega
  · intro f i g h
    by_cases hc : f.value - i.value < 0
    · simp [Frame.subInterval, Frame.init, hc] at h
    · simp [Frame.subInterval, Frame.init, hc] at h
      rw [← h]
      simpa using by omega

/-- Claim C6, witness: `Frame(-1)` raises `ValueError`; `Frame(1) +
FrameInterval(2)` yields a frame with non-negative value. -/
theorem c6_witness :
    Frame.init (-1) = .error .valueError ∧ 0 ≤ (⟨3⟩ : Frame).value :=
  ⟨c6_amended.1 (-1) (by norm_num),
   c6_amended.2.2.1 ⟨1⟩ ⟨2⟩ ⟨3⟩ (by rfl)⟩

/-- Claim C7.  For valid frame indices `a ≥ b ≥ 0`: `a - b` yields a
`FrameInterval` with value ≥ 0, and `b + (a - b)` reconstructs `a` exactly
(the constructor check passes because the sum equals `a.value ≥ 0`). -/
theorem c7_sub_add_roundtrip :
    ∀ a b : Frame, 0 ≤ b.value → b.value ≤ a.value →
      0 ≤ (Frame.subFrame a b).value ∧
      Frame.add b (Frame.subFrame a b) = .ok a := by
  intro a b hb hba
  constructor
  · simp only [Frame.subFrame]
    omega
  · rw [Frame.add, Frame.subFrame]
    simp only
    rw [Frame.init, if_neg (by omega)]
    congr 1
    cases a
    simp only [Frame.mk.injEq]
    omega

/-- Claim C7, witness: at `a = Frame(5)`, `b = Frame(2)`. -/
theorem c7_witness :
    0 ≤ (Frame.subFrame ⟨5⟩ ⟨2⟩).value ∧
    Frame.add ⟨2⟩ (Frame.subFrame ⟨5⟩ ⟨2⟩) = .ok ⟨5⟩ :=
  c7_sub_add_roundtrip ⟨5⟩ ⟨2⟩ (by norm_num) (by norm_num)

/-- Claim C8, counterexample.  The frame → time → frame round trip is NOT
within ±1 for every converter: with `fps = 10^7 / 1` (above the microsecond
resolution of `timedelta`), frame 5 maps to 0.5 µs, which `timedelta`
rounds (half to even) to 0, so the trip returns 0 — off by 5 frames. -/
theorem c8_counterexample :
    roundTrip ⟨10000000, 1⟩ 5 = 0 ∧
    ¬ ((roundTrip ⟨10000000, 1⟩ 5 - 5).natAbs ≤ 1) := by
  constructor <;>
    norm_num [roundTrip, Output.to_frame, Output.to_time, Output.calculate_frame,
      Output.calculate_seconds, Output.fps, timedeltaOfSeconds, rnd]

/-- Claim C8, amended.  For every converter with `0 < fps ≤ 10^6` (so that
one frame lasts at least the microsecond resolution of `timedelta`) and
every frame index, `to_frame(to_time(f))` is within ±1 of `f`.  Python float
arithmetic is idealised as exact rational arithmetic; the microsecond
quantisation of `timedelta(seconds=...)` is modelled exactly. -/
theorem c8_amended :
    ∀ (o : Output) (f : Int), 0 < o.fps_num → 0 < o.fps_den →
      o.fps_num ≤ 1000000 * o.fps_den →
      (roundTrip o f - f).natAbs ≤ 1 := by
  intro o f hn hd hb
  have hdQ : (0 : ℚ) < (o.fps_den : ℚ) := by exact_mod_cast hd
  have hnQ : (0 : ℚ) < (o.fps_num : ℚ) := by exact_mod_cast hn
  have hfps_pos : 0 < o.fps := div_pos hnQ hdQ
  have hfps_ne : o.fps ≠ 0 := ne_of_gt hfps_pos
  have hfps_le : o.fps ≤ 1000000 := by
    rw [Output.fps, div_le_iff₀ hdQ]
    exact_mod_cast hb
  have hs : o.calculate_seconds f = (f : ℚ) / o.fps := by
    simp [Output.calculate_seconds, if_neg hfps_ne]
  set s : ℚ := (f : ℚ) / o.fps with hs_def
  set m : Int := rnd (s * 1000000) with hm_def
  have hδ : |(m : ℚ) - s * 1000000| ≤ 1 / 2 := by
    have := rnd_dist (s * 1000000)
    simpa [hm_def] using this
  have hrt : roundTrip o f = rnd ((m : ℚ) / 1000000 * o.fps) := by
    simp [roundTrip, Output.to_frame, Output.to_time, Output.calculate_frame,
      timedeltaOfSeconds, hs, hm_def]
  have key : (m : ℚ) / 1000000 * o.fps
      = (f : ℚ) + ((m : ℚ) - s * 1000000) * o.fps / 1000000 := by
    have hsf : s * o.fps = (f : ℚ) := by
      field_simp [hs_def]
    field_simp
    linear_combination (1000000 : ℚ) * hsf
  have he : |((m : ℚ) - s * 1000000) * o.fps / 1000000| ≤ 1 / 2 := by
    rw [abs_div, abs_mul]
    have h1 : |(1000000 : ℚ)| = 1000000 := by norm_num
    rw [h1]
    rw [div_le_iff₀ (by norm_num : (0 : ℚ) < 1000000)]
    have h2 : |o.fps| = o.fps := abs_of_pos hfps_pos
    rw [h2]
    calc |(m : ℚ) - s * 1000000| * o.fps ≤ (1 / 2) * 1000000 :=
          mul_le_mul hδ hfps_le (le_of_lt hfps_pos) (by norm_num)
      _ = 1 / 2 * 1000000 := by norm_num
  rw [hrt, key]
  exact rnd_near_int f _ he

/-- Claim C8, witness: the NTSC-film rate `24000/1001` round-trips frame 100
to within ±1. -/
theorem c8_witness :
    (roundTrip ⟨24000, 1001⟩ 100 - 100).natAbs ≤ 1 :=
  c8_amended ⟨24000, 1001⟩ 100 (by norm_num) (by norm_num) (by norm_num)

/-- Claim C9.  `abort` is idempotent and a no-op outside a running state: at
the level of the controller state it only clears `running` (its other
statements touch GUI objects: the conditional `update_info` display refresh,
stopping the info timer, un-checking the Run/Abort button — whose re-entrant
`abort` call terminates because the button is already unchecked). -/
theorem c9_abort_idempotent :
    ∀ s : BState, abortRun (abortRun s) = abortRun s ∧
      (s.running = false → abortRun s = s) := by
  intro s
  constructor
  · rfl
  · intro h
    cases s
    simp only at h
    simp [abortRun, h]

/-- Claim C9, witness: aborting an already-aborted concrete run changes
nothing. -/
theorem c9_witness :
    abortRun (abortRun (abortRun (runB 0 9 10 4 true)))
      = abortRun (abortRun (runB 0 9 10 4 true)) ∧
    abortRun (abortRun (runB 0 9 10 4 true)) = abortRun (runB 0 9 10 4 true) :=
  ⟨(c9_abort_idempotent (abortRun (runB 0 9 10 4 true))).1,
   (c9_abort_idempotent (abortRun (runB 0 9 10 4 true))).2 (by decide)⟩

/-- Claim C10.  In `strfdelta` the `%M` field is `td.seconds // 60` — the
total minutes of the day part, not the minutes within the hour — so under
the `'%h:%M:%S.%Z'` format of `Time.__str__` a duration of one hour prints
as `1:60:00.000`, the minutes field reaches 60 for any duration of an hour
or more, and the hour is double-counted inside the minutes field
(`seconds // 60 = 60 * (seconds // 3600) + (seconds % 3600) // 60`). -/
theorem c10_strfdelta_total_minutes :
    (∀ td : Timedelta, Time.str td =
      natDigits (td.seconds / 3600) ++ ':' ::
      (pad2 (td.seconds / 60) ++ ':' ::
      (pad2 (td.seconds % 60) ++ '.' :: pad3 (td.microseconds / 1000)))) ∧
    Time.str ⟨0, 3600, 0⟩ = ['1', ':', '6', '0', ':', '0', '0', '.', '0', '0', '0'] ∧
    (∀ td : Timedelta, 3600 ≤ td.seconds →
      60 ≤ td.seconds / 60 ∧
      td.seconds / 60 = 60 * (td.seconds / 3600) + td.seconds % 3600 / 60) := by
  refine ⟨?_, by decide, ?_⟩
  · intro td
    simp [Time.str, timeFormatHMSZ, strfdelta, substField]
  · intro td h
    constructor
    · omega
    · omega

/-- Claim C10, witness: the one-hour instance. -/
theorem c10_witness :
    Time.str ⟨0, 3600, 0⟩ = ['1', ':', '6', '0', ':', '0', '0', '.', '0', '0', '0'] ∧
    60 ≤ (⟨0, 3600, 0⟩ : Timedelta).seconds / 60 :=
  ⟨c10_strfdelta_total_minutes.2.1,
   (c10_strfdelta_total_minutes.2.2 ⟨0, 3600, 0⟩ (by norm_num)).1⟩
